import Mathlib

/-!
Verification of the addressing-and-matching core of the fiat-lux repository.

Strings from the Rust source are modelled as lists of bytes (UTF-8); `strBytes`
converts a Lean string literal to its UTF-8 byte list. Byte-level operations
(slicing, `to_ascii_uppercase`, `as_bytes`, windows) are modelled exactly.
Character-level scans (`char::is_alphabetic`, `char::is_whitespace`) are
modelled at the byte level, which coincides with the source for ASCII input;
every input appearing in the theorems below is ASCII unless the point of the
theorem is a non-ASCII byte sequence, in which case only byte-level slicing
(which is exact) is involved. Rust panics are modelled as `Option.none`
results, which the surrounding definitions propagate.
-/

namespace FiatLux

/-- ASCII decimal digit byte. -/
def isDigitByte (u : Nat) : Bool := 48 ≤ u && u ≤ 57

/-- ASCII alphabetic byte (model of `char::is_alphabetic` on ASCII text). -/
def isAlphaByte (u : Nat) : Bool := (65 ≤ u && u ≤ 90) || (97 ≤ u && u ≤ 122)

/-- ASCII whitespace byte (model of `char::is_whitespace` on ASCII text). -/
def isWsByte (u : Nat) : Bool :=
  u = 32 || u = 9 || u = 10 || u = 11 || u = 12 || u = 13

/-- Regex word character `\w` at the byte level (ASCII): alphanumeric or underscore. -/
def isWordByte (u : Nat) : Bool := isAlphaByte u || isDigitByte u || u = 95

/-- Model of `u8::to_ascii_uppercase`, applied byte-wise; on UTF-8 text this is
exactly `str::to_ascii_uppercase`, which only maps ASCII lowercase letters. -/
def toUpperByte (u : Nat) : Nat := if 97 ≤ u && u ≤ 122 then u - 32 else u

/-- Model of `str::to_ascii_uppercase` on the byte representation. -/
def asciiUpper (s : List Nat) : List Nat := s.map toUpperByte

/-- UTF-8 encoding of one Unicode scalar value. -/
def utf8Bytes (c : Char) : List Nat :=
  let n := c.toNat
  if n < 128 then [n]
  else if n < 2048 then [192 + n / 64, 128 + n % 64]
  else if n < 65536 then [224 + n / 4096, 128 + n / 64 % 64, 128 + n % 64]
  else [240 + n / 262144, 128 + n / 4096 % 64, 128 + n / 64 % 64, 128 + n % 64]

/-- The UTF-8 byte list of a string literal, the form in which Rust `str`
values enter the model. -/
def strBytes (s : String) : List Nat := s.data.flatMap utf8Bytes

/-- The decimal digit bytes of a natural number (the `Display` rendering used
by `format!` and `write!`). -/
def natBytes (n : Nat) : List Nat := (Nat.toDigits 10 n).map Char.toNat

/-- Model of `str::is_char_boundary` at byte index `i`: true at 0, at the end
of the string, and at any byte that is not a UTF-8 continuation byte. -/
def isCharBoundary (s : List Nat) (i : Nat) : Bool :=
  if i = 0 then true
  else
    match s.get? i with
    | none => i = s.length
    | some b => !(128 ≤ b && b < 192)

/-- Model of Rust string slicing `s[a..b]`: `none` models the panic raised
when a bound is out of range or not a character boundary. -/
def sliceRange (s : List Nat) (a b : Nat) : Option (List Nat) :=
  if a ≤ b && isCharBoundary s a && isCharBoundary s b then
    some ((s.take b).drop a)
  else none

/-- Model of Rust string slicing `s[a..]`. -/
def sliceFrom (s : List Nat) (a : Nat) : Option (List Nat) :=
  if isCharBoundary s a then some (s.drop a) else none

/-- Model of `str::split_once(sep)` for a one-byte separator. -/
def splitOnce (sep : Nat) : List Nat → Option (List Nat × List Nat)
  | [] => none
  | b :: t =>
    if b = sep then some ([], t)
    else (splitOnce sep t).map fun p => (b :: p.1, p.2)

/-- Numeric value of a list of ASCII digit bytes. -/
def digitsVal (l : List Nat) : Nat := l.foldl (fun a d => a * 10 + (d - 48)) 0

/-- Model of Rust's `FromStr` for unsigned integers with maximum value `max`:
an optional leading plus sign, then one or more ASCII digits; an empty field,
a stray character, or overflow is an error (`none`). -/
def parseUInt (max : Nat) (s : List Nat) : Option Nat :=
  let ds := if s.head? = some 43 then s.tail else s
  if ds.isEmpty then none
  else if ds.all isDigitByte then
    let v := digitsVal ds
    if v ≤ max then some v else none
  else none

/-- `u16::from_str`. -/
def parseU16 (s : List Nat) : Option Nat := parseUInt 65535 s

/-- `NonZero<u16>::from_str`: parse as `u16`, then reject zero. -/
def parseNZU16 (s : List Nat) : Option {n : Nat // 0 < n} :=
  match parseU16 s with
  | some v => if h : 0 < v then some ⟨v, h⟩ else none
  | none => none

/-- Model of `AbbrevStr::get` from error.rs: keep the string whole when its
byte length is within `limit`, otherwise keep the first `limit` bytes and
append an ellipsis. The byte slice `full[..limit]` panics (modelled `none`)
when `limit` is not a character boundary of the string. -/
def abbrevGet (full : List Nat) (limit : Nat) : Option (List Nat) :=
  if full.length > limit then
    if isCharBoundary full limit then
      some (full.take limit ++ strBytes "...")
    else none
  else some full

instance {ε α : Type} [DecidableEq ε] [DecidableEq α] : DecidableEq (Except ε α) := fun a b =>
  match a, b with
  | Except.ok x, Except.ok y =>
    if h : x = y then isTrue (by rw [h]) else isFalse (by simp [h])
  | Except.error x, Except.error y =>
    if h : x = y then isTrue (by rw [h]) else isFalse (by simp [h])
  | Except.ok _, Except.error _ => isFalse (by simp)
  | Except.error _, Except.ok _ => isFalse (by simp)

/-! ## location.rs -/

/-- A single verse or an inclusive verse range (struct `Verse` in location.rs).
`start` models `NonZero<u16>` as a positive natural; `stop` models the field
`end` (a Lean keyword), an optional `NonZero<u16>`. -/
structure Verse where
  start : {n : Nat // 0 < n}
  stop : Option {n : Nat // 0 < n}
deriving DecidableEq, Repr

/-- Chapter and optional verse range (struct `PartialLocation` in location.rs). -/
structure PartialLocation where
  chapter : Nat
  verse : Option Verse
deriving DecidableEq, Repr

/-- `ParseLocationError` from location.rs; the `cause: ParseIntError` field
carries no information used by the program's observable behaviour and is
omitted. -/
inductive ParseLocationError where
  | Chapter (text : List Nat)
  | Verse (text : List Nat)
deriving DecidableEq, Repr

/-- `ParseLocationError::chapter` (truncates the offending text to 10 bytes). -/
def ParseLocationError.chapterErr (text : List Nat) : Option ParseLocationError :=
  (abbrevGet text 10).map ParseLocationError.Chapter

/-- `ParseLocationError::verse` (truncates the offending text to 10 bytes). -/
def ParseLocationError.verseErr (text : List Nat) : Option ParseLocationError :=
  (abbrevGet text 10).map ParseLocationError.Verse

/-- `Verse::contains`: zero never matches (the `NonZero::new` guard); with an
`end` the verse must lie in the inclusive range, otherwise it must equal
`start`. -/
def Verse.contains (r : Verse) (verse : Nat) : Bool :=
  if verse = 0 then false
  else
    match r.stop with
    | some e => decide (r.start.val ≤ verse) && decide (verse ≤ e.val)
    | none => decide (verse = r.start.val)

/-- `Verse::from_str`: split once on a hyphen; each side (or the whole string)
must parse as a `NonZero<u16>`. The outer `Option` propagates the panic that
`AbbrevStr::get` can raise while building the error. -/
def Verse.fromStr (s : List Nat) : Option (Except ParseLocationError Verse) :=
  match splitOnce 45 s with
  | some (a, b) =>
    match parseNZU16 a with
    | none => (ParseLocationError.verseErr s).map Except.error
    | some st =>
      match parseNZU16 b with
      | none => (ParseLocationError.verseErr s).map Except.error
      | some e => some (Except.ok ⟨st, some e⟩)
  | none =>
    match parseNZU16 s with
    | none => (ParseLocationError.verseErr s).map Except.error
    | some st => some (Except.ok ⟨st, none⟩)

/-- `PartialLocation::from_str`: split once on a colon; the chapter parses as
a plain `u16` (so zero is accepted), and a nonempty verse part parses via
`Verse::from_str`. -/
def PartialLocation.fromStr (s : List Nat) : Option (Except ParseLocationError PartialLocation) :=
  let p := (splitOnce 58 s).getD (s, [])
  match parseU16 p.1 with
  | none => (ParseLocationError.chapterErr p.1).map Except.error
  | some ch =>
    if p.2.isEmpty then some (Except.ok ⟨ch, none⟩)
    else
      match Verse.fromStr p.2 with
      | none => none
      | some (Except.error e) => some (Except.error e)
      | some (Except.ok v) => some (Except.ok ⟨ch, some v⟩)

/-! ## book.rs

The `Book` enum is declared identically in the library crate (src/book.rs) and
in the bible-cli crate; one Lean type models both. -/

/-- The 66 books, in declaration order; the Rust enum assigns discriminants
1 through 66 (Genesis = 1). -/
inductive Book where
  | Genesis | Exodus | Leviticus | Numbers | Deuteronomy | Joshua | Judges
  | Ruth | Samuel1 | Samuel2 | Kings1 | Kings2 | Chronicles1 | Chronicles2
  | Ezra | Nehemiah | Esther | Job | Psalms | Proverbs | Ecclesiastes
  | SongofSongs | Isaiah | Jeremiah | Lamentations | Ezekiel | Daniel | Hosea
  | Joel | Amos | Obadiah | Jonah | Micah | Nahum | Habakkuk | Zephaniah
  | Haggai | Zechariah | Malachi | Matthew | Mark | Luke | John | Acts
  | Romans | Corinthians1 | Corinthians2 | Galatians | Ephesians | Philippians
  | Colossians | Thessalonians1 | Thessalonians2 | Timothy1 | Timothy2 | Titus
  | Philemon | Hebrews | James | Peter1 | Peter2 | John1 | John2 | John3
  | Jude | Revelation
deriving DecidableEq, Repr, Fintype

/-- The `repr(u8)` discriminant of each book (1-based, Genesis = 1). The
derived Rust `Ord` on `Book` compares by this value. -/
def Book.ord (b : Book) : Nat :=
  match b with
  | .Genesis => 1 | .Exodus => 2 | .Leviticus => 3 | .Numbers => 4
  | .Deuteronomy => 5 | .Joshua => 6 | .Judges => 7 | .Ruth => 8
  | .Samuel1 => 9 | .Samuel2 => 10 | .Kings1 => 11 | .Kings2 => 12
  | .Chronicles1 => 13 | .Chronicles2 => 14 | .Ezra => 15 | .Nehemiah => 16
  | .Esther => 17 | .Job => 18 | .Psalms => 19 | .Proverbs => 20
  | .Ecclesiastes => 21 | .SongofSongs => 22 | .Isaiah => 23 | .Jeremiah => 24
  | .Lamentations => 25 | .Ezekiel => 26 | .Daniel => 27 | .Hosea => 28
  | .Joel => 29 | .Amos => 30 | .Obadiah => 31 | .Jonah => 32 | .Micah => 33
  | .Nahum => 34 | .Habakkuk => 35 | .Zephaniah => 36 | .Haggai => 37
  | .Zechariah => 38 | .Malachi => 39 | .Matthew => 40 | .Mark => 41
  | .Luke => 42 | .John => 43 | .Acts => 44 | .Romans => 45
  | .Corinthians1 => 46 | .Corinthians2 => 47 | .Galatians => 48
  | .Ephesians => 49 | .Philippians => 50 | .Colossians => 51
  | .Thessalonians1 => 52 | .Thessalonians2 => 53 | .Timothy1 => 54
  | .Timothy2 => 55 | .Titus => 56 | .Philemon => 57 | .Hebrews => 58
  | .James => 59 | .Peter1 => 60 | .Peter2 => 61 | .John1 => 62
  | .John2 => 63 | .John3 => 64 | .Jude => 65 | .Revelation => 66

/-- `Book::from_u8`: the inverse table; `none` models the
`panic!("invalid conversion")` arm for 0 and anything above 66. -/
def Book.fromU8 (u : Nat) : Option Book :=
  match u with
  | 1 => some .Genesis | 2 => some .Exodus | 3 => some .Leviticus
  | 4 => some .Numbers | 5 => some .Deuteronomy | 6 => some .Joshua
  | 7 => some .Judges | 8 => some .Ruth | 9 => some .Samuel1
  | 10 => some .Samuel2 | 11 => some .Kings1 | 12 => some .Kings2
  | 13 => some .Chronicles1 | 14 => some .Chronicles2 | 15 => some .Ezra
  | 16 => some .Nehemiah | 17 => some .Esther | 18 => some .Job
  | 19 => some .Psalms | 20 => some .Proverbs | 21 => some .Ecclesiastes
  | 22 => some .SongofSongs | 23 => some .Isaiah | 24 => some .Jeremiah
  | 25 => some .Lamentations | 26 => some .Ezekiel | 27 => some .Daniel
  | 28 => some .Hosea | 29 => some .Joel | 30 => some .Amos
  | 31 => some .Obadiah | 32 => some .Jonah | 33 => some .Micah
  | 34 => some .Nahum | 35 => some .Habakkuk | 36 => some .Zephaniah
  | 37 => some .Haggai | 38 => some .Zechariah | 39 => some .Malachi
  | 40 => some .Matthew | 41 => some .Mark | 42 => some .Luke
  | 43 => some .John | 44 => some .Acts | 45 => some .Romans
  | 46 => some .Corinthians1 | 47 => some .Corinthians2
  | 48 => some .Galatians | 49 => some .Ephesians | 50 => some .Philippians
  | 51 => some .Colossians | 52 => some .Thessalonians1
  | 53 => some .Thessalonians2 | 54 => some .Timothy1 | 55 => some .Timothy2
  | 56 => some .Titus | 57 => some .Philemon | 58 => some .Hebrews
  | 59 => some .James | 60 => some .Peter1 | 61 => some .Peter2
  | 62 => some .John1 | 63 => some .John2 | 64 => some .John3
  | 65 => some .Jude | 66 => some .Revelation
  | _ => none

/-- `Book::name`: the canonical display name. -/
def Book.name (b : Book) : String :=
  match b with
  | .Genesis => "Genesis" | .Exodus => "Exodus" | .Leviticus => "Leviticus"
  | .Numbers => "Numbers" | .Deuteronomy => "Deuteronomy" | .Joshua => "Joshua"
  | .Judges => "Judges" | .Ruth => "Ruth" | .Samuel1 => "1 Samuel"
  | .Samuel2 => "2 Samuel" | .Kings1 => "1 Kings" | .Kings2 => "2 Kings"
  | .Chronicles1 => "1 Chronicles" | .Chronicles2 => "2 Chronicles"
  | .Ezra => "Ezra" | .Nehemiah => "Nehemiah" | .Esther => "Esther"
  | .Job => "Job" | .Psalms => "Psalms" | .Proverbs => "Proverbs"
  | .Ecclesiastes => "Ecclesiastes" | .SongofSongs => "Song of Songs"
  | .Isaiah => "Isaiah" | .Jeremiah => "Jeremiah"
  | .Lamentations => "Lamentations" | .Ezekiel => "Ezekiel"
  | .Daniel => "Daniel" | .Hosea => "Hosea" | .Joel => "Joel" | .Amos => "Amos"
  | .Obadiah => "Obadiah" | .Jonah => "Jonah" | .Micah => "Micah"
  | .Nahum => "Nahum" | .Habakkuk => "Habakkuk" | .Zephaniah => "Zephaniah"
  | .Haggai => "Haggai" | .Zechariah => "Zechariah" | .Malachi => "Malachi"
  | .Matthew => "Matthew" | .Mark => "Mark" | .Luke => "Luke" | .John => "John"
  | .Acts => "Acts" | .Romans => "Romans" | .Corinthians1 => "1 Corinthians"
  | .Corinthians2 => "2 Corinthians" | .Galatians => "Galatians"
  | .Ephesians => "Ephesians" | .Philippians => "Philippians"
  | .Colossians => "Colossians" | .Thessalonians1 => "1 Thessalonians"
  | .Thessalonians2 => "2 Thessalonians" | .Timothy1 => "1 Timothy"
  | .Timothy2 => "2 Timothy" | .Titus => "Titus" | .Philemon => "Philemon"
  | .Hebrews => "Hebrews" | .James => "James" | .Peter1 => "1 Peter"
  | .Peter2 => "2 Peter" | .John1 => "1 John" | .John2 => "2 John"
  | .John3 => "3 John" | .Jude => "Jude" | .Revelation => "Revelation"

/-- `first_numeric_nonnumeric_transition` from book.rs: the byte index, if
any, of the first non-whitespace character past the first whose alphabetic
status differs from the input's first character. -/
def first_numeric_nonnumeric_transition (s : List Nat) : Option Nat :=
  match s with
  | [] => none
  | c :: rest =>
    let alpha := isAlphaByte c
    (rest.findIdx? fun u => !isWsByte u && (isAlphaByte u != alpha)).map (· + 1)

/-- Model of `str::trim` (ASCII whitespace). -/
def trimBytes (s : List Nat) : List Nat :=
  ((s.dropWhile isWsByte).reverse.dropWhile isWsByte).reverse

/-- `ParseBookError` from book.rs (offending text, truncated to 20 bytes). -/
structure ParseBookError where
  text : List Nat
deriving DecidableEq, Repr

/-- `ParseBookError::new`. -/
def ParseBookError.new (text : List Nat) : Option ParseBookError :=
  (abbrevGet text 20).map ParseBookError.mk

/-- `book_name_in_parts` from book.rs: split at the first numeric/non-numeric
transition; the trimmed side containing a digit is the number, the other the
name; the number must parse as a nonzero `u8`. -/
def book_name_in_parts (s : List Nat) :
    Option (Except ParseBookError (List Nat × Option Nat)) :=
  match first_numeric_nonnumeric_transition s with
  | none => some (Except.ok (s, none))
  | some idx =>
    let left := trimBytes (s.take idx)
    let right := trimBytes (s.drop idx)
    let p := if left.any isDigitByte then (right, left) else (left, right)
    match parseUInt 255 p.2 with
    | none => (ParseBookError.new s).map Except.error
    | some n =>
      if n = 0 then (ParseBookError.new s).map Except.error
      else some (Except.ok (p.1, some n))

/-- `Book::from_str`: uppercase the name side and match against the fixed
table, using the numeric qualifier to disambiguate the numbered books. -/
def Book.fromStr (s : List Nat) : Option (Except ParseBookError Book) :=
  match book_name_in_parts s with
  | none => none
  | some (Except.error e) => some (Except.error e)
  | some (Except.ok (name0, number)) =>
    let name := asciiUpper name0
    let ok (b : Book) : Option (Except ParseBookError Book) := some (Except.ok b)
    let fail : Option (Except ParseBookError Book) :=
      (ParseBookError.new s).map Except.error
    if name = strBytes "GENESIS" then ok .Genesis
    else if name = strBytes "EXODUS" then ok .Exodus
    else if name = strBytes "LEVITICUS" then ok .Leviticus
    else if name = strBytes "NUMBERS" then ok .Numbers
    else if name = strBytes "DEUTERONOMY" then ok .Deuteronomy
    else if name = strBytes "JOSHUA" then ok .Joshua
    else if name = strBytes "JUDGES" then ok .Judges
    else if name = strBytes "RUTH" then ok .Ruth
    else if name = strBytes "SAMUEL" then
      match number with
      | some 1 => ok .Samuel1 | some 2 => ok .Samuel2 | _ => fail
    else if name = strBytes "KINGS" then
      match number with
      | some 1 => ok .Kings1 | some 2 => ok .Kings2 | _ => fail
    else if name = strBytes "CHRONICLES" then
      match number with
      | some 1 => ok .Chronicles1 | some 2 => ok .Chronicles2 | _ => fail
    else if name = strBytes "EZRA" then ok .Ezra
    else if name = strBytes "NEHEMIAH" then ok .Nehemiah
    else if name = strBytes "ESTHER" then ok .Esther
    else if name = strBytes "JOB" then ok .Job
    else if name = strBytes "PSALMS" then ok .Psalms
    else if name = strBytes "PROVERBS" then ok .Proverbs
    else if name = strBytes "ECCLESIASTES" then ok .Ecclesiastes
    else if name = strBytes "SONGS" then ok .SongofSongs
    else if name = strBytes "SONG OF SONGS" then ok .SongofSongs
    else if name = strBytes "ISAIAH" then ok .Isaiah
    else if name = strBytes "JEREMIAH" then ok .Jeremiah
    else if name = strBytes "LAMENTATIONS" then ok .Lamentations
    else if name = strBytes "EZEKIEL" then ok .Ezekiel
    else if name = strBytes "DANIEL" then ok .Daniel
    else if name = strBytes "HOSEA" then ok .Hosea
    else if name = strBytes "JOEL" then ok .Joel
    else if name = strBytes "AMOS" then ok .Amos
    else if name = strBytes "OBADIAH" then ok .Obadiah
    else if name = strBytes "JONAH" then ok .Jonah
    else if name = strBytes "MICAH" then ok .Micah
    else if name = strBytes "NAHUM" then ok .Nahum
    else if name = strBytes "HABAKKUK" then ok .Habakkuk
    else if name = strBytes "ZEPHANIAH" then ok .Zephaniah
    else if name = strBytes "HAGGAI" then ok .Haggai
    else if name = strBytes "ZECHARIAH" then ok .Zechariah
    else if name = strBytes "MALACHI" then ok .Malachi
    else if name = strBytes "MATTHEW" then ok .Matthew
    else if name = strBytes "MARK" then ok .Mark
    else if name = strBytes "LUKE" then ok .Luke
    else if name = strBytes "JOHN" then
      match number with
      | none => ok .John | some 1 => ok .John1 | some 2 => ok .John2
      | some 3 => ok .John3 | _ => fail
    else if name = strBytes "ACTS" then ok .Acts
    else if name = strBytes "ROMANS" then ok .Romans
    else if name = strBytes "CORINTHIANS" then
      match number with
      | some 1 => ok .Corinthians1 | some 2 => ok .Corinthians2 | _ => fail
    else if name = strBytes "GALATIANS" then ok .Galatians
    else if name = strBytes "EPHESIANS" then ok .Ephesians
    else if name = strBytes "PHILIPPIANS" then ok .Philippians
    else if name = strBytes "COLOSSIANS" then ok .Colossians
    else if name = strBytes "THESSALONIANS" then
      match number with
      | some 1 => ok .Thessalonians1 | some 2 => ok .Thessalonians2 | _ => fail
    else if name = strBytes "TIMOTHY" then
      match number with
      | some 1 => ok .Timothy1 | some 2 => ok .Timothy2 | _ => fail
    else if name = strBytes "TITUS" then ok .Titus
    else if name = strBytes "PHILEMON" then ok .Philemon
    else if name = strBytes "HEBREWS" then ok .Hebrews
    else if name = strBytes "JAMES" then ok .James
    else if name = strBytes "PETER" then
      match number with
      | some 1 => ok .Peter1 | some 2 => ok .Peter2 | _ => fail
    else if name = strBytes "JUDE" then ok .Jude
    else if name = strBytes "REVELATION" then ok .Revelation
    else fail

/-- The books whose names carry a numeric qualifier, as (base name, qualifier,
book): the `Samuel`/`Kings`/`Chronicles`/`Corinthians`/`Thessalonians`/
`Timothy`/`Peter` pairs and the three Johannine epistles. -/
def variantBooks : List (String × Nat × Book) :=
  [("Samuel", 1, .Samuel1), ("Samuel", 2, .Samuel2),
   ("Kings", 1, .Kings1), ("Kings", 2, .Kings2),
   ("Chronicles", 1, .Chronicles1), ("Chronicles", 2, .Chronicles2),
   ("John", 1, .John1), ("John", 2, .John2), ("John", 3, .John3),
   ("Corinthians", 1, .Corinthians1), ("Corinthians", 2, .Corinthians2),
   ("Thessalonians", 1, .Thessalonians1), ("Thessalonians", 2, .Thessalonians2),
   ("Timothy", 1, .Timothy1), ("Timothy", 2, .Timothy2),
   ("Peter", 1, .Peter1), ("Peter", 2, .Peter2)]

/-- For a variant book with base name `N` and qualifier `n`: parsing each of
the three spellings `"n N"`, `"Nn"` and `"N n"` yields the book. -/
def variantRoundTrip (p : String × Nat × Book) : Bool :=
  let bb := strBytes p.1
  let nb := natBytes p.2.1
  decide (Book.fromStr (nb ++ 32 :: bb) = some (Except.ok p.2.2)) &&
    decide (Book.fromStr (bb ++ nb) = some (Except.ok p.2.2)) &&
    decide (Book.fromStr (bb ++ 32 :: nb) = some (Except.ok p.2.2))

/-! ## search.rs (SplitWindows) -/

/-- The byte positions matched by the regex `^\w|\b\w` of `SplitWindows::new`:
a word character at the start of the text or preceded by a non-word character
(each match is a single word character that begins a word). -/
def wordStartAt (t : List Nat) (i : Nat) : Bool :=
  (t.get? i).any isWordByte &&
    (decide (i = 0) || !(t.get? (i - 1)).any isWordByte)

namespace SplitWindows

/-- `SplitWindows::windows`: for each regex match position, yield
`text.get(start..start+len)`, silently dropping windows that run past the end
of the text (`str::get` returns `None` there). -/
def windows (text : List Nat) (len : Nat) : List (List Nat) :=
  ((List.range text.length).filter fun i => wordStartAt text i).filterMap
    fun i => if i + len ≤ text.length then some ((text.drop i).take len) else none

end SplitWindows

/-! ## bible-cli/src/main.rs -/

namespace Cli

/-- `get_distance`: the number of positions at which the two byte slices
differ, over the zipped common length (Hamming distance). -/
def get_distance (a b : List Nat) : Nat :=
  (a.zip b).countP fun p => decide (p.1 ≠ p.2)

/-- Model of `slice::windows(n)` for `n ≥ 1`: every contiguous run of `n`
bytes, left to right. (`windows(0)` panics in Rust; `edit_distance` models
that case separately.) -/
def windows (t : List Nat) (n : Nat) : List (List Nat) :=
  (List.range (t.length + 1 - n)).map fun i => (t.drop i).take n

/-- The windows of `text` that `edit_distance` scores: those whose first byte
equals the query's first byte (`window.starts_with(&query[..1])`). -/
def qualifying (query text : List Nat) : List (List Nat) :=
  (windows text query.length).filter fun w => w.take 1 = query.take 1

/-- The starting offsets of the windows that `edit_distance` scores. -/
def scoredOffsets (query text : List Nat) : List Nat :=
  (List.range (text.length + 1 - query.length)).filter
    fun i => ((text.drop i).take query.length).take 1 = query.take 1

/-- `edit_distance`: `some none` models the `None` result (query longer than
text, or no first-byte-matching window); the outer `none` models the panic of
`text.windows(0)` on an empty query. The score is the minimum `get_distance`
over the qualifying windows. -/
def edit_distance (query text : List Nat) : Option (Option Nat) :=
  if query.length > text.length then some none
  else if query.length = 0 then none
  else some (((qualifying query text).map fun w => get_distance query w).min?)

/-- The filter-map body of `search`: score each corpus line against the
uppercased query, dropping lines with no qualifying window; `line[9..]` strips
the fixed-width header (its panic on a short or non-boundary line propagates
as `none`). -/
def text_by_distance (query : List Nat) : List (List Nat) → Option (List (Nat × List Nat))
  | [] => some []
  | line :: rest =>
    (sliceFrom line 9).bind fun t =>
      (edit_distance query (asciiUpper t)).bind fun d? =>
        match d? with
        | none => text_by_distance query rest
        | some d => (text_by_distance query rest).map ((d, line) :: ·)

/-- The scored candidate list of `search` in the panic-free case (every line
long enough to strip its header): a spec-level view of `text_by_distance`
used to state its properties. -/
def candsOf (query : List Nat) (lines : List (List Nat)) : List (Nat × List Nat) :=
  lines.filterMap fun line =>
    match edit_distance query (asciiUpper (line.drop 9)) with
    | some (some d) => some (d, line)
    | _ => none

/-- The sort key of `sort_by_key(|x| x.0)`: ascending distance. Rust's
`sort_by_key` is a stable sort, modelled by `List.insertionSort`. -/
def byDistance (a b : Nat × List Nat) : Prop := a.1 ≤ b.1

instance : DecidableRel byDistance := fun a b => Nat.decLe a.1 b.1
instance : IsTotal (Nat × List Nat) byDistance := ⟨fun a b => Nat.le_total a.1 b.1⟩
instance : IsTrans (Nat × List Nat) byDistance := ⟨fun _ _ _ => Nat.le_trans⟩

/-- `search`: uppercase the query, score every line, stable-sort ascending by
distance, keep the lines of the first ten entries. -/
def search (query : List Nat) (lines : List (List Nat)) : Option (List (List Nat)) :=
  (text_by_distance (asciiUpper query) lines).map fun cands =>
    ((cands.insertionSort byDistance).map fun x => x.2).take 10

/-- `Entity` from bible-cli (and identically src/error.rs). -/
inductive Entity where
  | Book
  | Chapter
  | Verse
deriving DecidableEq, Repr

/-- bible-cli `Location`: chapter plus optional verse. -/
structure Location where
  chapter : Nat
  verse : Option Nat
deriving DecidableEq, Repr

/-- `NotFound` from bible-cli: the missing entity, the requested book, and
the requested location when one was given. -/
structure NotFound where
  entity : Entity
  book : Book
  location : Option Location
deriving DecidableEq, Repr

/-- One parsed corpus record. -/
structure CorpusRecord where
  book : Book
  chapter : Nat
  verse : Nat
  text : List Nat
deriving DecidableEq, Repr

/-- Per-chapter verse map (`ChapterIndex`); an `IndexMap` is modelled as an
insertion-ordered association list. -/
abbrev ChapterIndex := List (Nat × List Nat)

/-- Per-book chapter map (`BookIndex`). -/
abbrev BookIndex := List (Nat × ChapterIndex)

/-- The three-level index (`Index`). -/
abbrev Index := List (Book × BookIndex)

/-- `IndexMap::get`. -/
def alGet {κ β : Type} [DecidableEq κ] : List (κ × β) → κ → Option β
  | [], _ => none
  | (k', v) :: t, k => if k' = k then some v else alGet t k

/-- `IndexMap::insert`: replace in place when the key is present (keeping its
position), otherwise append at the end. -/
def alInsert {κ β : Type} [DecidableEq κ] : List (κ × β) → κ → β → List (κ × β)
  | [], k, v => [(k, v)]
  | (k', v') :: t, k, v =>
    if k' = k then (k', v) :: t else (k', v') :: alInsert t k v

/-- `IndexMap::entry(k).or_default()` followed by an update of the entry:
apply `f` to the existing value (or none) at `k`, in place, appending a new
entry at the end when `k` is absent. -/
def alModify {κ β : Type} [DecidableEq κ] : List (κ × β) → κ → (Option β → β) → List (κ × β)
  | [], k, f => [(k, f none)]
  | (k', v') :: t, k, f =>
    if k' = k then (k', f (some v')) :: t else (k', v') :: alModify t k f

/-- Sequential decode of every line, stopping at the first failure (the
panic semantics of the build loop). -/
def mapOption {α β : Type} (f : α → Option β) : List α → Option (List β)
  | [] => some []
  | a :: t => (f a).bind fun b => (mapOption f t).map fun bs => b :: bs

/-- The header decode of one line of `build_index`: `record[..2]` as `u8` fed
to `Book::from_u8`, `record[2..5]` and `record[5..8]` as `u16`, text from
byte 9; every `.unwrap()` failure and every invalid slice is a panic
(`none`). -/
def recordFields (record : List Nat) : Option CorpusRecord :=
  (sliceRange record 0 2).bind fun f1 =>
    (parseUInt 255 f1).bind fun bu =>
      (Book.fromU8 bu).bind fun book =>
        (sliceRange record 2 5).bind fun f2 =>
          (parseUInt 65535 f2).bind fun chapter =>
            (sliceRange record 5 8).bind fun f3 =>
              (parseUInt 65535 f3).bind fun verse =>
                (sliceFrom record 9).map fun text => ⟨book, chapter, verse, text⟩

/-- The insertion step of `build_index`:
`index.entry(book).or_default().entry(chapter).or_default().insert(verse, text)`. -/
def insertRecord (index : Index) (r : CorpusRecord) : Index :=
  alModify index r.book fun bi =>
    alModify (bi.getD []) r.chapter fun ci =>
      alInsert (ci.getD []) r.verse r.text

/-- The index built from already-decoded records, in encounter order. -/
def buildRecords (rs : List CorpusRecord) : Index := rs.foldl insertRecord []

/-- `build_index`: decode and insert every line; any header panic aborts the
whole build. -/
def build_index (lines : List (List Nat)) : Option Index :=
  (mapOption recordFields lines).map buildRecords

/-- The (book, chapter, verse) address of a record. -/
def CorpusRecord.addr (r : CorpusRecord) : Book × Nat × Nat :=
  (r.book, r.chapter, r.verse)

/-- The address predicate of a lookup, as a boolean test on records (used to
state which record a lookup retrieves). -/
def addrMatch (b : Book) (c v : Nat) (r : CorpusRecord) : Bool :=
  decide (r.book = b) && decide (r.chapter = c) && decide (r.verse = v)

/-- The chapter map reached by the first two levels of the index (a view of
the nested lookups, used to state the lookup lemmas). -/
def chapVal (index : Index) (book : Book) (chapter : Nat) : Option ChapterIndex :=
  (alGet index book).bind fun bi => alGet bi chapter

/-- The text reached by the three levels of the index (a view of the nested
lookups, used to state the lookup lemmas). -/
def verseVal (index : Index) (book : Book) (chapter verse : Nat) : Option (List Nat) :=
  (alGet index book).bind fun bi => (alGet bi chapter).bind fun ci => alGet ci verse

/-- The lookup path of `run` and `load_and_print` for a full address: a
missing book reports `NotFound` with entity `Book` and no location; a missing
chapter or verse reports entity `Chapter` or `Verse` with the requested
location. -/
def lookupVerse (index : Index) (book : Book) (chapter verse : Nat) :
    Except NotFound (List Nat) :=
  match alGet index book with
  | none => Except.error ⟨Entity.Book, book, none⟩
  | some bi =>
    match alGet bi chapter with
    | none => Except.error ⟨Entity.Chapter, book, some ⟨chapter, some verse⟩⟩
    | some ci =>
      match alGet ci verse with
      | none => Except.error ⟨Entity.Verse, book, some ⟨chapter, some verse⟩⟩
      | some t => Except.ok t

end Cli

/-! ## src/main.rs and src/text.rs -/

/-- `parse_verses_with_id`: for each line, parse `line[..8]` as a `u64`
verse id, silently dropping the line when the parse fails; slicing panics
(short lines) propagate as `none`. -/
def parse_verses_with_id : List (List Nat) → Option (List (Nat × List Nat))
  | [] => some []
  | line :: rest =>
    (sliceRange line 0 8).bind fun h =>
      match parseUInt 18446744073709551615 h with
      | none => parse_verses_with_id rest
      | some id =>
        (sliceFrom line 9).bind fun text =>
          (parse_verses_with_id rest).map ((id, text) :: ·)

/-- A search hit (`Text` from src/text.rs). -/
structure Text where
  book : Book
  chapter : Nat
  verse : Nat
  content : List Nat
deriving DecidableEq, Repr

/-- `impl Ord for Text`: compare by book discriminant, then chapter, then
verse; content is ignored. -/
def Text.cmp (a b : Text) : Ordering :=
  (compare a.book.ord b.book.ord).then
    ((compare a.chapter b.chapter).then (compare a.verse b.verse))

/-- The (non-strict) order underlying `Vec::sort` for `Text`. -/
def textLe (a b : Text) : Prop := Text.cmp a b ≠ Ordering.gt

instance : DecidableRel textLe := fun a b =>
  inferInstanceAs (Decidable (¬Text.cmp a b = Ordering.gt))

/-- The tail of `search_by_book_and_location` after the engine returns: sort
the fetched records canonically (`texts.sort()`, a stable sort by `Text`'s
`Ord`), then, when the query carried a verse range, retain only the records
whose verse the range contains. -/
def processFetched (location : Option PartialLocation) (fetched : List Text) : List Text :=
  let texts := fetched.insertionSort textLe
  match location.bind (fun l => l.verse) with
  | some r => texts.filter fun t => r.contains t.verse
  | none => texts

/-- The location facet built by `search_by_book_and_location`:
`/{book as u8}` then, when a location was supplied, `/{chapter}` — never a
verse component. -/
def locationFacet (book : Book) (location : Option PartialLocation) : List Nat :=
  let buf := 47 :: natBytes book.ord
  match location with
  | some l => buf ++ 47 :: natBytes l.chapter
  | none => buf

/-! ## Helper lemmas -/

theorem parseUInt_all_digits {max : Nat} {s : List Nat} {v : Nat}
    (h : parseUInt max s = some v) :
    (if s.head? = some 43 then s.tail else s).all isDigitByte = true := by
  unfold parseUInt at h
  set ds := if s.head? = some 43 then s.tail else s with hds
  by_cases h1 : ds.isEmpty
  · rw [if_pos h1] at h
    cases h
  · rw [if_neg h1] at h
    by_cases h2 : ds.all isDigitByte
    · exact h2
    · rw [if_neg h2] at h
      cases h

theorem parseUInt_mem {max : Nat} {s : List Nat} {v : Nat}
    (h : parseUInt max s = some v) : ∀ u ∈ s, u = 43 ∨ isDigitByte u = true := by
  intro u hu
  have hall := parseUInt_all_digits h
  by_cases hh : s.head? = some 43
  · rw [if_pos hh] at hall
    cases s with
    | nil => simp at hh
    | cons a t =>
      simp only [List.head?_cons, Option.some.injEq] at hh
      subst hh
      simp only [List.tail_cons] at hall
      rcases List.mem_cons.mp hu with rfl | hu
      · exact Or.inl rfl
      · exact Or.inr (List.all_eq_true.mp hall u hu)
  · rw [if_neg hh] at hall
    exact Or.inr (List.all_eq_true.mp hall u hu)

theorem splitOnce_append (sep : Nat) (s t : List Nat) (h : sep ∉ s) :
    splitOnce sep (s ++ sep :: t) = some (s, t) := by
  induction s with
  | nil => simp [splitOnce]
  | cons a s ih =>
    have ha : a ≠ sep := fun hc => h (hc ▸ List.mem_cons_self a s)
    have hs : sep ∉ s := fun hc => h (List.mem_cons_of_mem a hc)
    simp only [List.cons_append, splitOnce, if_neg ha, List.append_eq, ih hs,
      Option.map_some']

theorem parseNZU16_eq {s : List Nat} {a : Nat} (h : parseU16 s = some a)
    (h0 : 0 < a) : parseNZU16 s = some ⟨a, h0⟩ := by
  unfold parseNZU16
  rw [h]
  simp [h0]

/-! ## Claims -/

/-- C5: for every verse-range value, when there is no `end`, `contains v`
holds iff `v` equals `start`; when there is an `end` `e`, `contains v` holds
iff `start ≤ v ≤ e`; and `contains 0` is always false. -/
theorem claim_C5_contains (r : Verse) (v : Nat) :
    (r.stop = none → (r.contains v = true ↔ v = r.start.val)) ∧
    (∀ e, r.stop = some e →
      (r.contains v = true ↔ r.start.val ≤ v ∧ v ≤ e.val)) ∧
    r.contains 0 = false := by
  obtain ⟨⟨s, hs⟩, st⟩ := r
  refine ⟨?_, ?_, by simp [Verse.contains]⟩
  · rintro rfl
    by_cases hv : v = 0
    · subst hv
      simp [Verse.contains]
      omega
    · simp [Verse.contains, hv]
  · rintro ⟨e, he⟩ rfl
    by_cases hv : v = 0
    · subst hv
      simp [Verse.contains]
      omega
    · simp [Verse.contains, hv]

theorem claim_C5_contains_witness :
    ((⟨⟨3, by decide⟩, some ⟨5, by decide⟩⟩ : Verse).contains 4 = true ↔
      3 ≤ 4 ∧ 4 ≤ 5) ∧
    (⟨⟨3, by decide⟩, some ⟨5, by decide⟩⟩ : Verse).contains 0 = false :=
  ⟨(claim_C5_contains ⟨⟨3, by decide⟩, some ⟨5, by decide⟩⟩ 4).2.1
      ⟨5, by decide⟩ rfl,
    (claim_C5_contains ⟨⟨3, by decide⟩, some ⟨5, by decide⟩⟩ 0).2.2⟩

/-- C10: chapter/verse parsing accepts chapter 0 — `"0"` and `"0:5"` both
succeed with chapter 0 — while a zero verse field (`"1:0"`) is rejected as a
verse parse error. -/
theorem claim_C10_chapter_zero :
    PartialLocation.fromStr (strBytes "0") = some (Except.ok ⟨0, none⟩) ∧
    PartialLocation.fromStr (strBytes "0:5") =
      some (Except.ok ⟨0, some ⟨⟨5, by decide⟩, none⟩⟩) ∧
    PartialLocation.fromStr (strBytes "1:0") =
      some (Except.error (ParseLocationError.Verse (strBytes "0"))) := by
  refine ⟨by decide, by decide, by decide⟩

/-- C1 counterexample: the claim says `"5-3"` is rejected as a parse error,
but `Verse::from_str` accepts it, returning start 5 and end 3 unchanged. -/
theorem claim_C1_counterexample :
    Verse.fromStr (strBytes "5-3") =
      some (Except.ok ⟨⟨5, by decide⟩, some ⟨3, by decide⟩⟩) := by
  decide

/-- C1 (amended): `Verse::from_str` validates only that each bound parses as
a positive 16-bit integer, not their order: any `"start-end"` whose two sides
parse as positive `u16` values is accepted with the bounds as written, even
when end < start; such an inverted range's `contains` is false everywhere. -/
theorem claim_C1_amended :
    (∀ (s t : List Nat) (a b : Nat) (ha : parseU16 s = some a) (h0a : 0 < a)
      (hb : parseU16 t = some b) (h0b : 0 < b),
      Verse.fromStr (s ++ 45 :: t) =
        some (Except.ok ⟨⟨a, h0a⟩, some ⟨b, h0b⟩⟩)) ∧
    (∀ (r : Verse) (e : {n : Nat // 0 < n}), r.stop = some e →
      e.val < r.start.val → ∀ v, r.contains v = false) := by
  constructor
  · intro s t a b ha h0a hb h0b
    have h45 : (45 : Nat) ∉ s := by
      intro hm
      rcases parseUInt_mem ha 45 hm with h | h
      · omega
      · simp [isDigitByte] at h
    unfold Verse.fromStr
    rw [splitOnce_append 45 s t h45]
    simp only [parseNZU16_eq ha h0a, parseNZU16_eq hb h0b]
  · rintro ⟨⟨s, hs⟩, st⟩ ⟨ev, hev⟩ rfl hlt v
    by_cases hv : v = 0
    · subst hv
      simp [Verse.contains]
    · have hlt' : ev < s := hlt
      simp only [Verse.contains, if_neg hv]
      simp only [Bool.and_eq_false_iff, decide_eq_false_iff_not, not_le]
      omega

theorem claim_C1_amended_witness :
    (parseU16 [55] = some 7 ∧ 0 < 7 ∧ parseU16 [50] = some 2 ∧ 0 < 2 ∧
      Verse.fromStr ([55] ++ 45 :: [50]) =
        some (Except.ok ⟨⟨7, by decide⟩, some ⟨2, by decide⟩⟩)) ∧
    ((⟨⟨7, by decide⟩, some ⟨2, by decide⟩⟩ : Verse).stop =
        some ⟨2, by decide⟩ ∧ 2 < 7 ∧
      (⟨⟨7, by decide⟩, some ⟨2, by decide⟩⟩ : Verse).contains 5 = false) :=
  ⟨⟨by decide, by decide, by decide, by decide,
      claim_C1_amended.1 [55] [50] 7 2 (by decide) (by decide) (by decide)
        (by decide)⟩,
    ⟨rfl, by decide,
      claim_C1_amended.2 ⟨⟨7, by decide⟩, some ⟨2, by decide⟩⟩ ⟨2, by decide⟩
        rfl (by decide) 5⟩⟩

/-- C6: parsing a book's canonical display name yields that book (for the
numbered books the display name itself carries the qualifier), and for every
variant book with base name N and qualifier n, the spellings "n N", "Nn"
and "N n" all parse to that same book. -/
theorem claim_C6_roundtrip :
    (∀ b : Book, Book.fromStr (strBytes b.name) = some (Except.ok b)) ∧
    variantBooks.all variantRoundTrip = true := by
  constructor
  · intro b
    cases b <;> decide
  · decide

section SearchLemmas

open Cli

theorem length_asciiUpper (s : List Nat) : (asciiUpper s).length = s.length :=
  List.length_map s toUpperByte

theorem take_one_eq_iff (a b : List Nat) :
    a.take 1 = b.take 1 ↔ a.head? = b.head? := by
  cases a <;> cases b <;> simp

theorem head?_take {α : Type} (l : List α) {n : Nat} (hn : 0 < n) :
    (l.take n).head? = l.head? := by
  cases l with
  | nil => simp
  | cons a t =>
    cases n with
    | zero => omega
    | succ n => simp

theorem natMin?_eq_some_iff {l : List Nat} {a : Nat} :
    l.min? = some a ↔ a ∈ l ∧ ∀ b ∈ l, a ≤ b :=
  List.min?_eq_some_iff (fun _ => Nat.le_refl _)
    (fun x y => by
      rcases Nat.le_total x y with h | h
      · exact Or.inl (Nat.min_eq_left h)
      · exact Or.inr (Nat.min_eq_right h))
    (fun _ _ _ => Nat.le_min)

theorem sliceFrom_of_boundary {s : List Nat} {a : Nat}
    (h : isCharBoundary s a = true) : sliceFrom s a = some (s.drop a) := by
  simp [sliceFrom, h]

theorem edit_distance_ne_none {q t : List Nat} (hq : 0 < q.length) :
    edit_distance q t ≠ none := by
  unfold edit_distance
  by_cases h1 : q.length > t.length
  · rw [if_pos h1]
    simp
  · rw [if_neg h1, if_neg (by omega : ¬q.length = 0)]
    simp

theorem text_by_distance_eq {q : List Nat} (hq : 0 < q.length)
    (lines : List (List Nat))
    (hwf : ∀ line ∈ lines, isCharBoundary line 9 = true) :
    text_by_distance q lines = some (candsOf q lines) := by
  induction lines with
  | nil => rfl
  | cons line rest ih =>
    have h9 := hwf line (List.mem_cons_self line rest)
    have hrest := ih fun l hl => hwf l (List.mem_cons_of_mem line hl)
    unfold text_by_distance
    rw [sliceFrom_of_boundary h9, Option.some_bind]
    cases hd : edit_distance q (asciiUpper (line.drop 9)) with
    | none => exact absurd hd (edit_distance_ne_none hq)
    | some d? =>
      cases d? with
      | none =>
        rw [Option.some_bind, hrest]
        simp [candsOf, List.filterMap_cons, hd]
      | some d =>
        rw [Option.some_bind, hrest]
        simp [candsOf, List.filterMap_cons, hd]

theorem mem_windows_iff {t w : List Nat} {n : Nat} :
    w ∈ windows t n ↔ ∃ i, i + n ≤ t.length ∧ w = (t.drop i).take n := by
  unfold windows
  simp only [List.mem_map, List.mem_range]
  constructor
  · rintro ⟨i, hi, rfl⟩
    exact ⟨i, by omega, rfl⟩
  · rintro ⟨i, hi, rfl⟩
    exact ⟨i, by omega, rfl⟩

theorem mem_qualifying_iff {q t w : List Nat} (hq : 0 < q.length) :
    w ∈ qualifying q t ↔
      ∃ i, i + q.length ≤ t.length ∧ w = (t.drop i).take q.length ∧
        t[i]? = q[0]? := by
  unfold qualifying
  rw [List.mem_filter]
  constructor
  · rintro ⟨hw, hfb⟩
    obtain ⟨i, hi, rfl⟩ := mem_windows_iff.mp hw
    refine ⟨i, hi, rfl, ?_⟩
    simp only [decide_eq_true_eq] at hfb
    rw [take_one_eq_iff, head?_take _ hq, List.head?_drop] at hfb
    rw [hfb]
    cases q with
    | nil => simp at hq
    | cons a _ => simp
  · rintro ⟨i, hi, rfl, hfb⟩
    refine ⟨mem_windows_iff.mpr ⟨i, hi, rfl⟩, ?_⟩
    simp only [decide_eq_true_eq]
    rw [take_one_eq_iff, head?_take _ hq, List.head?_drop, hfb]
    cases q with
    | nil => simp at hq
    | cons a _ => simp

theorem qualifying_eq_nil_iff {q t : List Nat} (hq : 0 < q.length) :
    qualifying q t = [] ↔
      ¬∃ i, i + q.length ≤ t.length ∧ t[i]? = q[0]? := by
  rw [List.eq_nil_iff_forall_not_mem]
  constructor
  · rintro hall ⟨i, hi, hfb⟩
    exact hall _ ((mem_qualifying_iff hq).mpr ⟨i, hi, rfl, hfb⟩)
  · intro hno w hw
    obtain ⟨i, hi, -, hfb⟩ := (mem_qualifying_iff hq).mp hw
    exact hno ⟨i, hi, hfb⟩

theorem edit_distance_none_iff {q t : List Nat} (hq : 0 < q.length) :
    edit_distance q t = some none ↔
      ¬∃ i, i + q.length ≤ t.length ∧ t[i]? = q[0]? := by
  unfold edit_distance
  by_cases h1 : q.length > t.length
  · rw [if_pos h1]
    refine iff_of_true rfl ?_
    rintro ⟨i, hi, -⟩
    omega
  · rw [if_neg h1, if_neg (by omega)]
    rw [Option.some_inj, List.min?_eq_none_iff, List.map_eq_nil,
      qualifying_eq_nil_iff hq]

theorem edit_distance_some_iff {q t : List Nat} {d : Nat} (hq : 0 < q.length)
    (h : edit_distance q t = some (some d)) :
    (∃ w ∈ qualifying q t, get_distance q w = d) ∧
      ∀ w ∈ qualifying q t, d ≤ get_distance q w := by
  unfold edit_distance at h
  by_cases h1 : q.length > t.length
  · rw [if_pos h1] at h
    cases h
  · rw [if_neg h1, if_neg (by omega), Option.some_inj] at h
    obtain ⟨hmem, hle⟩ := natMin?_eq_some_iff.mp h
    obtain ⟨w, hw, hwd⟩ := List.mem_map.mp hmem
    refine ⟨⟨w, hw, hwd⟩, ?_⟩
    intro w' hw'
    exact hle _ (List.mem_map.mpr ⟨w', hw', rfl⟩)

theorem orderedInsert_filter_key (d : Nat) (x : Nat × List Nat)
    (m : List (Nat × List Nat)) :
    ((m.orderedInsert byDistance x).filter fun a => decide (a.1 = d)) =
      if x.1 = d then x :: m.filter fun a => decide (a.1 = d)
      else m.filter fun a => decide (a.1 = d) := by
  induction m with
  | nil => by_cases hx : x.1 = d <;> simp [List.orderedInsert, hx]
  | cons y m ih =>
    show (List.filter _ (if byDistance x y then x :: y :: m
      else y :: List.orderedInsert byDistance x m)) = _
    by_cases hr : byDistance x y
    · rw [if_pos hr]
      by_cases hx : x.1 = d <;> simp [hx, List.filter_cons]
    · rw [if_neg hr]
      have hyx : y.1 < x.1 := Nat.lt_of_not_le hr
      by_cases hx : x.1 = d
      · have hy : ¬(y.1 = d) := by omega
        simp [List.filter_cons, hy, ih, hx]
      · simp [List.filter_cons, ih, hx]

theorem insertionSort_filter_key (d : Nat) (l : List (Nat × List Nat)) :
    ((l.insertionSort byDistance).filter fun a => decide (a.1 = d)) =
      l.filter fun a => decide (a.1 = d) := by
  induction l with
  | nil => rfl
  | cons x l ih =>
    show ((List.orderedInsert byDistance x
      (l.insertionSort byDistance)).filter _) = _
    rw [orderedInsert_filter_key]
    by_cases hx : x.1 = d <;> simp [hx, ih, List.filter_cons]

/-- C7: on a corpus of well-formed lines (the 9-byte header present), the
approximate-match search returns the scored candidates sorted ascending by
score, ties in corpus encounter order (the equal-score subsequence is
untouched by the sort), truncated to the fixed limit of ten; a candidate text
is excluded exactly when it has no window of the query's length whose first
byte equals the uppercased query's first byte — in particular whenever the
query is longer than the text — and an included candidate's score is the
minimum Hamming distance (`get_distance`) over its qualifying windows, all
computed on the uppercased query and text. -/
theorem claim_C7_search (query : List Nat) (lines : List (List Nat))
    (hq : 0 < query.length)
    (hwf : ∀ line ∈ lines, isCharBoundary line 9 = true) :
    text_by_distance (asciiUpper query) lines =
        some (candsOf (asciiUpper query) lines) ∧
    search query lines =
      some ((((candsOf (asciiUpper query) lines).insertionSort
          byDistance).map fun x => x.2).take 10) ∧
    List.Pairwise (fun a b : Nat × List Nat => a.1 ≤ b.1)
      ((candsOf (asciiUpper query) lines).insertionSort byDistance) ∧
    ((candsOf (asciiUpper query) lines).insertionSort byDistance).Perm
      (candsOf (asciiUpper query) lines) ∧
    (∀ d : Nat,
      (((candsOf (asciiUpper query) lines).insertionSort byDistance).filter
          fun a => decide (a.1 = d)) =
        (candsOf (asciiUpper query) lines).filter fun a => decide (a.1 = d)) ∧
    (∀ t : List Nat,
      (edit_distance (asciiUpper query) t = some none ↔
        ¬∃ i, i + query.length ≤ t.length ∧ t[i]? = (asciiUpper query)[0]?) ∧
      (query.length > t.length → edit_distance (asciiUpper query) t = some none)) ∧
    (∀ (t : List Nat) (d : Nat),
      edit_distance (asciiUpper query) t = some (some d) →
      (∃ w ∈ qualifying (asciiUpper query) t,
        get_distance (asciiUpper query) w = d) ∧
      ∀ w ∈ qualifying (asciiUpper query) t,
        d ≤ get_distance (asciiUpper query) w) := by
  have hq' : 0 < (asciiUpper query).length := by
    rw [length_asciiUpper]
    exact hq
  refine ⟨text_by_distance_eq hq' lines hwf, ?_, ?_, ?_, ?_, ?_, ?_⟩
  · unfold search
    rw [text_by_distance_eq hq' lines hwf, Option.map_some']
  · exact List.sorted_insertionSort byDistance (candsOf (asciiUpper query) lines)
  · exact List.perm_insertionSort byDistance (candsOf (asciiUpper query) lines)
  · intro d
    exact insertionSort_filter_key d (candsOf (asciiUpper query) lines)
  · intro t
    constructor
    · rw [edit_distance_none_iff hq']
      rw [length_asciiUpper]
    · intro hlong
      rw [edit_distance_none_iff hq', length_asciiUpper]
      rintro ⟨i, hi, -⟩
      omega
  · intro t d hd
    exact edit_distance_some_iff hq' hd

theorem claim_C7_search_witness :
    0 < (strBytes "now").length ∧
    (∀ line ∈ [strBytes "01001001 HOW NOW BROWN COW",
        strBytes "01001002 nothing here"], isCharBoundary line 9 = true) ∧
    search (strBytes "now")
        [strBytes "01001001 HOW NOW BROWN COW",
          strBytes "01001002 nothing here"] =
      some ((((candsOf (asciiUpper (strBytes "now"))
          [strBytes "01001001 HOW NOW BROWN COW",
            strBytes "01001002 nothing here"]).insertionSort
          byDistance).map fun x => x.2).take 10) :=
  ⟨by decide, by decide,
    (claim_C7_search (strBytes "now")
        [strBytes "01001001 HOW NOW BROWN COW",
          strBytes "01001002 nothing here"] (by decide) (by decide)).2.1⟩

/-- C8 counterexample: the claim says every scored window begins at a word
boundary of the candidate text. For query "OW" and text "HOWL" the CLI
matcher's only qualifying window is anchored at offset 1 — mid-word — yet it
is scored, giving the candidate score 0. -/
theorem claim_C8_counterexample :
    Cli.edit_distance (strBytes "OW") (strBytes "HOWL") = some (some 0) ∧
    Cli.scoredOffsets (strBytes "OW") (strBytes "HOWL") = [1] ∧
    Cli.qualifying (strBytes "OW") (strBytes "HOWL") =
      (Cli.scoredOffsets (strBytes "OW") (strBytes "HOWL")).map
        (fun i => ((strBytes "HOWL").drop i).take 2) ∧
    wordStartAt (strBytes "HOWL") 1 = false :=
  ⟨by decide, by decide, by decide, by decide⟩

/-- C8 (amended): word-boundary anchoring holds for the library's
`SplitWindows::windows` — every window it yields starts at a regex match
position, i.e. a word character at the start of the text or preceded by a
non-word character — but the CLI matcher `edit_distance` scores a window at
every byte offset whose first byte matches the query's first byte, including
mid-word offsets. -/
theorem claim_C8_amended :
    (∀ (t : List Nat) (len : Nat) (w : List Nat),
      w ∈ SplitWindows.windows t len →
      ∃ i, wordStartAt t i = true ∧ i + len ≤ t.length ∧
        w = (t.drop i).take len) ∧
    (∀ q t : List Nat, Cli.qualifying q t =
      (Cli.scoredOffsets q t).map fun i => (t.drop i).take q.length) := by
  constructor
  · intro t len w hw
    unfold SplitWindows.windows at hw
    obtain ⟨i, hi, hval⟩ := List.mem_filterMap.mp hw
    have hws : wordStartAt t i = true := (List.mem_filter.mp hi).2
    by_cases hb : i + len ≤ t.length
    · rw [if_pos hb, Option.some_inj] at hval
      exact ⟨i, hws, hb, hval.symm⟩
    · rw [if_neg hb] at hval
      cases hval
  · intro q t
    unfold Cli.qualifying Cli.windows Cli.scoredOffsets
    rw [List.filter_map]
    rfl

theorem claim_C8_amended_witness :
    strBytes "NOW" ∈ SplitWindows.windows (strBytes "HOW NOW BROWN COW") 3 ∧
    ∃ i, wordStartAt (strBytes "HOW NOW BROWN COW") i = true ∧
      i + 3 ≤ (strBytes "HOW NOW BROWN COW").length ∧
      strBytes "NOW" = ((strBytes "HOW NOW BROWN COW").drop i).take 3 :=
  ⟨by decide,
    claim_C8_amended.1 (strBytes "HOW NOW BROWN COW") 3 (strBytes "NOW")
      (by decide)⟩

end SearchLemmas

theorem textLe_iff (a b : Text) :
    textLe a b ↔ (a.book.ord < b.book.ord ∨ (a.book.ord = b.book.ord ∧
      (a.chapter < b.chapter ∨ (a.chapter = b.chapter ∧
        a.verse ≤ b.verse)))) := by
  unfold textLe Text.cmp
  rcases Nat.lt_trichotomy a.book.ord b.book.ord with h1 | h1 | h1
  · rw [Nat.compare_eq_lt.mpr h1]
    simp [Ordering.then, h1]
  · rw [h1, Nat.compare_eq_eq.mpr rfl]
    simp only [Ordering.then]
    rcases Nat.lt_trichotomy a.chapter b.chapter with h2 | h2 | h2
    · rw [Nat.compare_eq_lt.mpr h2]
      simp [Ordering.then, h1, h2]
    · rw [h2, Nat.compare_eq_eq.mpr rfl]
      simp only [Ordering.then]
      constructor
      · intro h3
        have hv : ¬b.verse < a.verse := fun hlt =>
          h3 (Nat.compare_eq_gt.mpr hlt)
        exact Or.inr ⟨by simp, Or.inr ⟨by simp, by omega⟩⟩
      · intro h3 hc
        have hgt := Nat.compare_eq_gt.mp hc
        omega
    · rw [Nat.compare_eq_gt.mpr h2]
      simp only [Ordering.then]
      constructor
      · intro h3
        exact absurd rfl h3
      · intro h3
        exfalso
        omega
  · rw [Nat.compare_eq_gt.mpr h1]
    simp only [Ordering.then]
    constructor
    · intro h3
      exact absurd rfl h3
    · intro h3
      exfalso
      omega

/-- C9: for every query that supplies a verse range, the facet path sent to
the search engine encodes only the book ordinal and the chapter — never a
verse component — and the returned list is a permutation-exact filter of the
fetched records by the range's `contains` predicate, sorted canonically by
(book, chapter, verse). -/
theorem claim_C9_range_query (b : Book) (ch : Nat) (r : Verse)
    (fetched : List Text) :
    locationFacet b (some ⟨ch, some r⟩) =
      47 :: natBytes b.ord ++ 47 :: natBytes ch ∧
    (processFetched (some ⟨ch, some r⟩) fetched).Perm
      (fetched.filter fun t => r.contains t.verse) ∧
    List.Pairwise
      (fun x y : Text => x.book.ord < y.book.ord ∨
        (x.book.ord = y.book.ord ∧ (x.chapter < y.chapter ∨
          (x.chapter = y.chapter ∧ x.verse ≤ y.verse))))
      (processFetched (some ⟨ch, some r⟩) fetched) := by
  haveI htot : IsTotal Text textLe :=
    ⟨fun a b => by rw [textLe_iff, textLe_iff]; omega⟩
  haveI htrans : IsTrans Text textLe :=
    ⟨fun a b c => by rw [textLe_iff, textLe_iff, textLe_iff]; omega⟩
  refine ⟨rfl, ?_, ?_⟩
  · exact (List.perm_insertionSort textLe fetched).filter _
  · have hs : List.Sorted textLe (fetched.insertionSort textLe) :=
      List.sorted_insertionSort textLe fetched
    have hs2 := hs.filter fun t => r.contains t.verse
    exact List.Pairwise.imp (fun h => (textLe_iff _ _).mp h) hs2

/-- C2, at the failing input: the claim says every user-supplied string is
handled with an error value, the offending substring truncated to the fixed
limit with an ellipsis. But for the four-euro-sign input (twelve UTF-8
bytes), the truncation `full[..10]` inside `AbbrevStr::get` falls on a UTF-8
continuation byte, which is a byte-slice panic, not an error value. -/
theorem claim_C2_panic :
    PartialLocation.fromStr (strBytes "€€€€") = none := by
  decide

theorem mapOption_eq_none_of_mem {α β : Type} {f : α → Option β} {l : List α}
    {x : α} (hx : x ∈ l) (hf : f x = none) : Cli.mapOption f l = none := by
  induction l with
  | nil => cases hx
  | cons a t ih =>
    rcases List.mem_cons.mp hx with rfl | hx
    · simp [Cli.mapOption, hf]
    · cases ha : f a
      · simp [Cli.mapOption, ha]
      · simp [Cli.mapOption, ha, ih hx]

section IndexLemmas

open Cli

variable {κ β : Type} [DecidableEq κ]

theorem alGet_alModify_self (m : List (κ × β)) (k : κ) (f : Option β → β) :
    alGet (alModify m k f) k = some (f (alGet m k)) := by
  induction m with
  | nil => simp [alGet, alModify]
  | cons p t ih =>
    obtain ⟨k', v'⟩ := p
    by_cases h : k' = k
    · simp [alGet, alModify, h]
    · simp [alGet, alModify, h, ih]

theorem alGet_alModify_other (m : List (κ × β)) (k k' : κ) (f : Option β → β)
    (h : k ≠ k') : alGet (alModify m k f) k' = alGet m k' := by
  induction m with
  | nil => simp [alGet, alModify, h]
  | cons p t ih =>
    obtain ⟨k0, v0⟩ := p
    by_cases h0 : k0 = k
    · subst h0
      simp [alGet, alModify, h]
    · simp [alGet, alModify, h0, ih]

theorem alGet_alInsert_self (m : List (κ × β)) (k : κ) (v : β) :
    alGet (alInsert m k v) k = some v := by
  induction m with
  | nil => simp [alGet, alInsert]
  | cons p t ih =>
    obtain ⟨k0, v0⟩ := p
    by_cases h0 : k0 = k
    · subst h0
      simp [alGet, alInsert]
    · simp [alGet, alInsert, h0, ih]

theorem alGet_alInsert_other (m : List (κ × β)) (k k' : κ) (v : β)
    (h : k ≠ k') : alGet (alInsert m k v) k' = alGet m k' := by
  induction m with
  | nil => simp [alGet, alInsert, h]
  | cons p t ih =>
    obtain ⟨k0, v0⟩ := p
    by_cases h0 : k0 = k
    · subst h0
      simp [alGet, alInsert, h]
    · simp [alGet, alInsert, h0, ih]

theorem alGet_insertRecord_none_iff (ix : Index) (r : CorpusRecord) (b : Book) :
    alGet (insertRecord ix r) b = none ↔ alGet ix b = none ∧ r.book ≠ b := by
  by_cases hb : r.book = b
  · subst hb
    unfold insertRecord
    rw [alGet_alModify_self]
    simp
  · unfold insertRecord
    rw [alGet_alModify_other _ _ _ _ hb]
    simp [hb]

theorem chapVal_insertRecord_none_iff (ix : Index) (r : CorpusRecord)
    (b : Book) (c : Nat) :
    chapVal (insertRecord ix r) b c = none ↔
      chapVal ix b c = none ∧ ¬(r.book = b ∧ r.chapter = c) := by
  by_cases hb : r.book = b
  · subst hb
    unfold chapVal insertRecord
    rw [alGet_alModify_self]
    by_cases hc : r.chapter = c
    · subst hc
      rw [Option.some_bind, alGet_alModify_self]
      simp
    · rw [Option.some_bind, alGet_alModify_other _ _ _ _ hc]
      cases hbo : alGet ix r.book with
      | none => simp [alGet, hc]
      | some bi => simp [hc]
  · unfold chapVal insertRecord
    rw [alGet_alModify_other _ _ _ _ hb]
    simp [hb]

theorem verseVal_insertRecord (ix : Index) (r : CorpusRecord) (b : Book)
    (c v : Nat) :
    verseVal (insertRecord ix r) b c v =
      if r.book = b ∧ r.chapter = c ∧ r.verse = v then some r.text
      else verseVal ix b c v := by
  by_cases hb : r.book = b
  · subst hb
    unfold verseVal insertRecord
    rw [alGet_alModify_self, Option.some_bind]
    by_cases hc : r.chapter = c
    · subst hc
      rw [alGet_alModify_self, Option.some_bind]
      by_cases hv : r.verse = v
      · subst hv
        rw [alGet_alInsert_self]
        simp
      · rw [alGet_alInsert_other _ _ _ _ hv]
        cases hbo : alGet ix r.book with
        | none => simp [alGet, hv, hbo]
        | some bi =>
          cases hco : alGet bi r.chapter with
          | none => simp [alGet, hv, hbo, hco]
          | some ci => simp [hv, hbo, hco]
    · rw [alGet_alModify_other _ _ _ _ hc]
      cases hbo : alGet ix r.book with
      | none => simp [alGet, hc]
      | some bi => simp [hc]
  · unfold verseVal insertRecord
    rw [alGet_alModify_other _ _ _ _ hb]
    simp [hb]

theorem alGet_buildFold_none_iff (b : Book) (rs : List CorpusRecord)
    (ix : Index) :
    alGet (rs.foldl insertRecord ix) b = none ↔
      alGet ix b = none ∧ ∀ r ∈ rs, r.book ≠ b := by
  induction rs generalizing ix with
  | nil => simp
  | cons r rs ih =>
    rw [List.foldl_cons, ih, alGet_insertRecord_none_iff]
    simp only [List.forall_mem_cons]
    tauto

theorem chapVal_buildFold_none_iff (b : Book) (c : Nat)
    (rs : List CorpusRecord) (ix : Index) :
    chapVal (rs.foldl insertRecord ix) b c = none ↔
      chapVal ix b c = none ∧ ∀ r ∈ rs, ¬(r.book = b ∧ r.chapter = c) := by
  induction rs generalizing ix with
  | nil => simp
  | cons r rs ih =>
    rw [List.foldl_cons, ih, chapVal_insertRecord_none_iff]
    simp only [List.forall_mem_cons]
    tauto

theorem verseVal_buildFold (b : Book) (c v : Nat) (rs : List CorpusRecord)
    (ix : Index) :
    verseVal (rs.foldl insertRecord ix) b c v =
      match rs.reverse.find? (addrMatch b c v) with
      | some r => some r.text
      | none => verseVal ix b c v := by
  induction rs generalizing ix with
  | nil => simp
  | cons r rs ih =>
    rw [List.foldl_cons, ih, List.reverse_cons, List.find?_append]
    cases hf : rs.reverse.find? (addrMatch b c v) with
    | some r' => simp
    | none =>
      simp only [Option.none_orElse]
      rw [verseVal_insertRecord]
      by_cases hm : r.book = b ∧ r.chapter = c ∧ r.verse = v
      · obtain ⟨h1, h2, h3⟩ := hm
        have : addrMatch b c v r = true := by
          simp [addrMatch, h1, h2, h3]
        simp [List.find?, this, if_pos (And.intro h1 (And.intro h2 h3))]
      · have : addrMatch b c v r = false := by
          simp only [addrMatch, Bool.and_eq_false_iff, decide_eq_false_iff_not]
          tauto
        simp [List.find?, this, if_neg hm]

theorem find?_eq_some_of_unique {α : Type} {p : α → Bool} {l : List α} {x : α}
    (hx : x ∈ l) (hpx : p x = true) (huniq : ∀ y ∈ l, p y = true → y = x) :
    l.find? p = some x := by
  induction l with
  | nil => cases hx
  | cons a t ih =>
    by_cases hpa : p a = true
    · have ha : a = x := huniq a (List.mem_cons_self a t) hpa
      subst ha
      simp [List.find?, hpa]
    · have hpa' : p a = false := by
        cases h : p a
        · rfl
        · exact absurd h hpa
      rcases List.mem_cons.mp hx with rfl | hx'
      · exact absurd hpx hpa
      · simp only [List.find?, hpa']
        exact ih hx' fun y hy => huniq y (List.mem_cons_of_mem a hy)

theorem lookupVerse_eq_ok {ix : Index} {b : Book} {c v : Nat} {t : List Nat}
    (h : verseVal ix b c v = some t) : lookupVerse ix b c v = Except.ok t := by
  unfold verseVal at h
  cases hbo : alGet ix b with
  | none => rw [hbo] at h; cases h
  | some bi =>
    rw [hbo, Option.some_bind] at h
    cases hco : alGet bi c with
    | none => rw [hco] at h; cases h
    | some ci =>
      rw [hco, Option.some_bind] at h
      simp [lookupVerse, hbo, hco, h]

theorem lookupVerse_book_err {ix : Index} {b : Book} (c v : Nat)
    (h : alGet ix b = none) :
    lookupVerse ix b c v = Except.error ⟨Entity.Book, b, none⟩ := by
  simp [lookupVerse, h]

theorem lookupVerse_chapter_err {ix : Index} {b : Book} {c : Nat} (v : Nat)
    {bi : BookIndex} (hb : alGet ix b = some bi) (hc : alGet bi c = none) :
    lookupVerse ix b c v =
      Except.error ⟨Entity.Chapter, b, some ⟨c, some v⟩⟩ := by
  simp [lookupVerse, hb, hc]

theorem lookupVerse_verse_err {ix : Index} {b : Book} {c v : Nat}
    {bi : BookIndex} {ci : ChapterIndex} (hb : alGet ix b = some bi)
    (hc : alGet bi c = some ci) (hv : alGet ci v = none) :
    lookupVerse ix b c v =
      Except.error ⟨Entity.Verse, b, some ⟨c, some v⟩⟩ := by
  simp [lookupVerse, hb, hc, hv]

/-- C4: over any corpus whose records carry pairwise distinct (book, chapter,
verse) addresses, looking up each inserted record's full address returns
exactly that record's text; a book absent from the index yields `NotFound`
with entity `Book`; a present book with an absent chapter yields entity
`Chapter`; and a present chapter with an absent verse yields entity
`Verse`. -/
theorem claim_C4_index_lookup (records : List CorpusRecord)
    (hnd : (records.map CorpusRecord.addr).Nodup) :
    (∀ r ∈ records,
      lookupVerse (buildRecords records) r.book r.chapter r.verse =
        Except.ok r.text) ∧
    (∀ (b : Book) (c v : Nat), (∀ r ∈ records, r.book ≠ b) →
      lookupVerse (buildRecords records) b c v =
        Except.error ⟨Entity.Book, b, none⟩) ∧
    (∀ (b : Book) (c v : Nat), (∃ r ∈ records, r.book = b) →
      (∀ r ∈ records, ¬(r.book = b ∧ r.chapter = c)) →
      lookupVerse (buildRecords records) b c v =
        Except.error ⟨Entity.Chapter, b, some ⟨c, some v⟩⟩) ∧
    (∀ (b : Book) (c v : Nat), (∃ r ∈ records, r.book = b ∧ r.chapter = c) →
      (∀ r ∈ records, ¬(r.book = b ∧ r.chapter = c ∧ r.verse = v)) →
      lookupVerse (buildRecords records) b c v =
        Except.error ⟨Entity.Verse, b, some ⟨c, some v⟩⟩) := by
  unfold buildRecords
  refine ⟨?_, ?_, ?_, ?_⟩
  · intro r hr
    apply lookupVerse_eq_ok
    rw [verseVal_buildFold]
    have hfind :
        records.reverse.find? (addrMatch r.book r.chapter r.verse) = some r := by
      apply find?_eq_some_of_unique (List.mem_reverse.mpr hr)
      · simp [addrMatch]
      · intro y hy hpy
        simp only [addrMatch, Bool.and_eq_true, decide_eq_true_eq] at hpy
        refine List.inj_on_of_nodup_map hnd (List.mem_reverse.mp hy) hr ?_
        simp [CorpusRecord.addr, hpy.1.1, hpy.1.2, hpy.2]
    rw [hfind]
  · intro b c v habs
    apply lookupVerse_book_err
    rw [alGet_buildFold_none_iff]
    exact ⟨rfl, habs⟩
  · rintro b c v ⟨r0, hr0, hb0⟩ habs
    have hbook : alGet (records.foldl insertRecord []) b ≠ none := by
      intro hno
      rw [alGet_buildFold_none_iff] at hno
      exact hno.2 r0 hr0 hb0
    obtain ⟨bi, hbi⟩ := Option.ne_none_iff_exists'.mp hbook
    have hchap : chapVal (records.foldl insertRecord []) b c = none := by
      rw [chapVal_buildFold_none_iff]
      exact ⟨rfl, habs⟩
    unfold chapVal at hchap
    rw [hbi, Option.some_bind] at hchap
    exact lookupVerse_chapter_err v hbi hchap
  · rintro b c v ⟨r0, hr0, hm0⟩ habs
    have hchap : chapVal (records.foldl insertRecord []) b c ≠ none := by
      intro hno
      rw [chapVal_buildFold_none_iff] at hno
      exact hno.2 r0 hr0 hm0
    have hverse : verseVal (records.foldl insertRecord []) b c v = none := by
      rw [verseVal_buildFold]
      cases hf : records.reverse.find? (addrMatch b c v) with
      | some r' =>
        exfalso
        have hmem := List.mem_reverse.mp (List.mem_of_find?_eq_some hf)
        have hp := List.find?_some hf
        simp only [addrMatch, Bool.and_eq_true, decide_eq_true_eq] at hp
        exact habs r' hmem ⟨hp.1.1, hp.1.2, hp.2⟩
      | none => rfl
    unfold chapVal at hchap
    unfold verseVal at hverse
    cases hbi : alGet (records.foldl insertRecord []) b with
    | none => rw [hbi] at hchap; exact absurd rfl hchap
    | some bi =>
      rw [hbi, Option.some_bind] at hchap hverse
      cases hci : alGet bi c with
      | none => rw [hci] at hchap; exact absurd rfl hchap
      | some ci =>
        rw [hci, Option.some_bind] at hverse
        exact lookupVerse_verse_err hbi hci hverse

theorem claim_C4_index_lookup_witness :
    (([⟨Book.Genesis, 1, 1, strBytes "In the beginning"⟩,
        ⟨Book.Psalms, 23, 1, strBytes "The earth"⟩] :
          List CorpusRecord).map CorpusRecord.addr).Nodup ∧
    lookupVerse
        (buildRecords [⟨Book.Genesis, 1, 1, strBytes "In the beginning"⟩,
          ⟨Book.Psalms, 23, 1, strBytes "The earth"⟩])
        Book.Psalms 23 1 = Except.ok (strBytes "The earth") ∧
    lookupVerse
        (buildRecords [⟨Book.Genesis, 1, 1, strBytes "In the beginning"⟩,
          ⟨Book.Psalms, 23, 1, strBytes "The earth"⟩])
        Book.Exodus 1 1 = Except.error ⟨Entity.Book, Book.Exodus, none⟩ ∧
    lookupVerse
        (buildRecords [⟨Book.Genesis, 1, 1, strBytes "In the beginning"⟩,
          ⟨Book.Psalms, 23, 1, strBytes "The earth"⟩])
        Book.Genesis 2 1 =
      Except.error ⟨Entity.Chapter, Book.Genesis, some ⟨2, some 1⟩⟩ ∧
    lookupVerse
        (buildRecords [⟨Book.Genesis, 1, 1, strBytes "In the beginning"⟩,
          ⟨Book.Psalms, 23, 1, strBytes "The earth"⟩])
        Book.Genesis 1 5 =
      Except.error ⟨Entity.Verse, Book.Genesis, some ⟨1, some 5⟩⟩ :=
  ⟨by decide,
    (claim_C4_index_lookup _ (by decide)).1
      ⟨Book.Psalms, 23, 1, strBytes "The earth"⟩ (by decide),
    (claim_C4_index_lookup _ (by decide)).2.1 Book.Exodus 1 1 (by decide),
    (claim_C4_index_lookup _ (by decide)).2.2.1 Book.Genesis 2 1
      ⟨⟨Book.Genesis, 1, 1, strBytes "In the beginning"⟩, by decide, rfl⟩
      (by decide),
    (claim_C4_index_lookup _ (by decide)).2.2.2 Book.Genesis 1 5
      ⟨⟨Book.Genesis, 1, 1, strBytes "In the beginning"⟩, by decide,
        rfl, rfl⟩
      (by decide)⟩

end IndexLemmas

/-- C3 counterexample: the claim says index construction fails fast on any
line with a malformed 8-digit header, never skipping it silently; but
`parse_verses_with_id` simply filters out a line whose header does not parse,
returning the remaining records with no error. -/
theorem claim_C3_counterexample :
    parse_verses_with_id
        [strBytes "AAAAAAAA skipped", strBytes "01001001 In the beginning"] =
      some [(1001001, strBytes "In the beginning")] := by
  decide

/-- C3 (amended): the two index builders disagree. The bible-cli `build_index`
does fail fast — a line whose header fields do not decode panics the whole
build — but the library's `parse_verses_with_id` silently skips any line whose
first eight bytes do not parse as an integer; it still never emits a record
derived from such a line: every record it emits comes from a line whose
header parsed. -/
theorem claim_C3_amended :
    (∀ (lines : List (List Nat)) (line : List Nat), line ∈ lines →
      Cli.recordFields line = none → Cli.build_index lines = none) ∧
    (∀ (lines : List (List Nat)) (rs : List (Nat × List Nat)),
      parse_verses_with_id lines = some rs →
      ∀ p ∈ rs, ∃ line ∈ lines, ∃ h,
        sliceRange line 0 8 = some h ∧
          parseUInt 18446744073709551615 h = some p.1 ∧
          sliceFrom line 9 = some p.2) := by
  constructor
  · intro lines line hmem hbad
    unfold Cli.build_index
    rw [mapOption_eq_none_of_mem hmem hbad]
    rfl
  · intro lines
    induction lines with
    | nil =>
      intro rs hp p hmem
      simp only [parse_verses_with_id, Option.some.injEq] at hp
      subst hp
      cases hmem
    | cons line rest ih =>
      intro rs hp p hmem
      simp only [parse_verses_with_id] at hp
      cases h8 : sliceRange line 0 8 with
      | none => rw [h8] at hp; cases hp
      | some hdr =>
        rw [h8] at hp
        simp only [Option.some_bind] at hp
        cases hid : parseUInt 18446744073709551615 hdr with
        | none =>
          rw [hid] at hp
          obtain ⟨l, hl, hrest⟩ := ih rs hp p hmem
          exact ⟨l, List.mem_cons_of_mem line hl, hrest⟩
        | some id =>
          rw [hid] at hp
          cases h9 : sliceFrom line 9 with
          | none => rw [h9] at hp; cases hp
          | some text =>
            rw [h9] at hp
            simp only [Option.some_bind] at hp
            cases hr : parse_verses_with_id rest with
            | none => rw [hr] at hp; cases hp
            | some rs' =>
              rw [hr] at hp
              simp only [Option.map_some', Option.some.injEq] at hp
              subst hp
              rcases List.mem_cons.mp hmem with rfl | hmem
              · exact ⟨line, List.mem_cons_self line rest,
                  hdr, h8, hid, h9⟩
              · obtain ⟨l, hl, hrest⟩ := ih rs' hr p hmem
                exact ⟨l, List.mem_cons_of_mem line hl, hrest⟩

theorem claim_C3_amended_witness :
    (strBytes "0100x002 bad" ∈
        [strBytes "01001001 In the beginning", strBytes "0100x002 bad"] ∧
      Cli.recordFields (strBytes "0100x002 bad") = none ∧
      Cli.build_index
          [strBytes "01001001 In the beginning", strBytes "0100x002 bad"] =
        none) ∧
    (parse_verses_with_id [strBytes "01001001 In the beginning"] =
        some [(1001001, strBytes "In the beginning")] ∧
      (1001001, strBytes "In the beginning") ∈
        [((1001001 : Nat), strBytes "In the beginning")] ∧
      ∃ line ∈ [strBytes "01001001 In the beginning"], ∃ h,
        sliceRange line 0 8 = some h ∧
          parseUInt 18446744073709551615 h = some 1001001 ∧
          sliceFrom line 9 = some (strBytes "In the beginning")) :=
  ⟨⟨by decide, by decide,
      claim_C3_amended.1
        [strBytes "01001001 In the beginning", strBytes "0100x002 bad"]
        (strBytes "0100x002 bad") (by decide) (by decide)⟩,
    ⟨by decide, by decide,
      claim_C3_amended.2 [strBytes "01001001 In the beginning"]
        [(1001001, strBytes "In the beginning")] (by decide)
        (1001001, strBytes "In the beginning") (by decide)⟩⟩

end FiatLux
